import Mathlib

/-!
# Verification of `kernel/groups.c` (supplementary group IDs)

Shallow embedding of the supplementary-group-ID management code in
`src/kernel/groups.c`.  Group identifiers (`kgid_t`) are only ever compared
(`gid_gt`, `gid_lt`, `gid_lte`, `gid_eq`) and copied, so they are modelled as
natural numbers.  `GROUP_AT(group_info, i)` is flat indexing
(`blocks[i / NGROUPS_PER_BLOCK][i % NGROUPS_PER_BLOCK]`), so the stored
identifiers of a `group_info` are modelled as a flat `List ℕ`; the block
structure itself is modelled separately for the allocator.  Error returns
(`-EPERM`, ...) are modelled as the corresponding `Int` values.
-/

/-- `EPERM` (operation not permitted), from the kernel headers. -/
def EPERM : Int := 1

/-- `ENOMEM` (out of memory), from the kernel headers. -/
def ENOMEM : Int := 12

/-- `EFAULT` (bad address), from the kernel headers. -/
def EFAULT : Int := 14

/-- `EINVAL` (invalid argument), from the kernel headers. -/
def EINVAL : Int := 22

/-- Modelled from the spec: the `PER_BLOCK` constant (`NGROUPS_PER_BLOCK =
PAGE_SIZE / sizeof(gid_t)` in the kernel headers, which are not under `src/`):
each storage block holds this many identifiers. -/
def NGROUPS_PER_BLOCK : ℕ := 1024

/-- Modelled from the spec: the small-set threshold (`NGROUPS_SMALL` in the
kernel headers, not under `src/`) below which the single inline block embedded
in the container is used. -/
def NGROUPS_SMALL : ℕ := 32

/-- Modelled from the spec: the fixed maximum request size (`NGROUPS_MAX` in
the kernel headers, not under `src/`). -/
def NGROUPS_MAX : ℕ := 65536

/-- `#define AID_SDCARD_RW 1015` (src/kernel/groups.c line 300). -/
def AID_SDCARD_RW : ℕ := 1015

/-- `#define AID_SDCARD_R 1028` (src/kernel/groups.c line 303). -/
def AID_SDCARD_R : ℕ := 1028

/-!
## Sort Engine (`groups_sort`, src/kernel/groups.c lines 106-132)

The C code is a Shell sort over the flat sequence of identifiers:

    for (stride = 1; stride < gidsetsize; stride = 3 * stride + 1) ;
    stride /= 3;
    while (stride) { … one insertion pass at gap `stride` … ; stride /= 3; }

Each C loop becomes one recursive function.  The inner `while` walks `left`
downwards by `stride`, so `left` is an `Int` (it exits when `left < 0`);
`stride` is strictly positive whenever the pass runs (the `while (stride)`
guard), and that positivity is carried as a hypothesis argument to justify
termination of the inner walk.
-/

/-- `for (stride = 1; stride < gidsetsize; stride = 3 * stride + 1);`
(groups.c line 111): grow `s` through 1, 4, 13, 40, ... until it reaches `n`. -/
def growStride (n : ℕ) (s : ℕ) : ℕ :=
  if s < n then growStride n (3 * s + 1) else s
termination_by n - s
decreasing_by omega

/-- The inner `while (left >= 0 && …)` of `groups_sort` (groups.c lines
122-127) followed by the final write `GROUP_AT(group_info, right) = tmp`
(line 128): shift elements greater than `tmp` up by `stride`, then drop `tmp`
into the hole. -/
def innerWhile (stride : ℕ) (hs : 0 < stride) (tmp : ℕ) (l : List ℕ)
    (left : Int) (right : ℕ) : List ℕ :=
  if 0 ≤ left ∧ tmp < l.getD left.toNat 0 then
    innerWhile stride hs tmp (l.set right (l.getD left.toNat 0))
      (left - stride) left.toNat
  else
    l.set right tmp
termination_by (left + 1).toNat
decreasing_by omega

/-- One iteration of the `for (base = 0; base < max; base++)` body of
`groups_sort` (groups.c lines 117-128): `left = base`, `right = base + stride`,
`tmp = GROUP_AT(group_info, right)`. -/
def insertStep (stride : ℕ) (hs : 0 < stride) (l : List ℕ) (base : ℕ) :
    List ℕ :=
  innerWhile stride hs (l.getD (base + stride) 0) l (base : Int) (base + stride)

/-- The `for (base = 0; base < max; base++)` loop of `groups_sort`
(groups.c line 117). -/
def baseLoop (stride : ℕ) (hs : 0 < stride) (max : ℕ) (l : List ℕ)
    (base : ℕ) : List ℕ :=
  if base < max then baseLoop stride hs max (insertStep stride hs l base) (base + 1)
  else l
termination_by max - base
decreasing_by omega

/-- One full gap pass of `groups_sort` at gap `stride`:
`max = gidsetsize - stride` (groups.c line 116; `gidsetsize` never changes, and
element writes preserve the length, so `max` is computed once here). -/
def onePass (stride : ℕ) (hs : 0 < stride) (l : List ℕ) : List ℕ :=
  baseLoop stride hs (l.length - stride) l 0

/-- The `while (stride) { …; stride /= 3; }` loop of `groups_sort`
(groups.c lines 115-131). -/
def strideLoop (l : List ℕ) (stride : ℕ) : List ℕ :=
  if h : stride = 0 then l
  else strideLoop (onePass stride (Nat.pos_of_ne_zero h) l) (stride / 3)
termination_by stride
decreasing_by exact Nat.div_lt_self (Nat.pos_of_ne_zero h) (by omega)

/-- `groups_sort` (src/kernel/groups.c lines 106-132), acting on the flat
sequence of identifiers of a `group_info`. -/
def groups_sort (l : List ℕ) : List ℕ :=
  strideLoop l (growStride l.length 1 / 3)

/-- The gap values `1, 4, 13, 40, …` that the stride computation of
`groups_sort` can produce (each is `3 * previous + 1`). -/
inductive StrideChain : ℕ → Prop where
  | one : StrideChain 1
  | step (s : ℕ) : StrideChain s → StrideChain (3 * s + 1)

example : groups_sort [3, 1, 2] = [1, 2, 3] := by
  simp [groups_sort, strideLoop, onePass, baseLoop, insertStep, innerWhile,
    growStride]
example : groups_sort [] = [] := by
  simp [groups_sort, strideLoop, onePass, baseLoop, insertStep, innerWhile,
    growStride]
example : groups_sort [5, 4, 4, 9, 0, 7, 7, 2] = [0, 2, 4, 4, 5, 7, 7, 9] := by
  simp [groups_sort, strideLoop, onePass, baseLoop, insertStep, innerWhile,
    growStride]
example : groups_sort [9, 8, 7, 6, 5, 4, 3, 2, 1, 0, 10, 11, 2, 2] =
    [0, 1, 2, 2, 2, 3, 4, 5, 6, 7, 8, 9, 10, 11] := by
  simp [groups_sort, strideLoop, onePass, baseLoop, insertStep, innerWhile,
    growStride]

/-!
## Search Engine (`groups_search`, src/kernel/groups.c lines 135-154)

    left = 0; right = group_info->ngroups;
    while (left < right) { mid = (left+right)/2; … }

The C function returns `int` 0/1; it is modelled as `Bool`.  The `group_info`
pointer may be NULL (`if (!group_info) return 0;`), modelled by `Option`.
-/

/-- The `while (left < right)` binary-search loop of `groups_search`
(groups.c lines 144-152). -/
def searchLoop (l : List ℕ) (grp : ℕ) (left right : ℕ) : Bool :=
  if left < right then
    let mid := (left + right) / 2
    if l.getD mid 0 < grp then searchLoop l grp (mid + 1) right
    else if grp < l.getD mid 0 then searchLoop l grp left mid
    else true
  else false
termination_by right - left
decreasing_by all_goals omega

/-- `groups_search` (src/kernel/groups.c lines 135-154): binary search of a
(sorted) `group_info` for `grp`; a NULL `group_info` yields not-found. -/
def groups_search (group_info : Option (List ℕ)) (grp : ℕ) : Bool :=
  match group_info with
  | none => false
  | some l => searchLoop l grp 0 l.length

example : groups_search (some [2, 4, 7, 9]) 7 = true := by
  simp [groups_search, searchLoop]
example : groups_search (some [2, 4, 7, 9]) 5 = false := by
  simp [groups_search, searchLoop]
example : groups_search none 5 = false := rfl
example : groups_search (some []) 5 = false := by
  simp [groups_search, searchLoop]

/-!
## Subset Checker (`is_subset`, src/kernel/groups.c lines 159-177)

    for (i = 0, j = 0; i < g1->ngroups; i++) {
        gid1 = GROUP_AT(g1, i);
        for (; j < g2->ngroups; j++) { gid2 = GROUP_AT(g2, j); if (gid1 <= gid2) break; }
        if (j >= g2->ngroups || gid1 != gid2) return false;
        j++;
    }
    return true;

The cursor `j` only moves forward, so the walk is modelled by structural
recursion on `g1` that carries the not-yet-examined suffix of `g2`: the inner
`for` is `dropWhile (· < gid1)`, the `j >= ngroups` exit is the `[]` case, and
`j++` after a match drops the matched head.
-/

/-- `is_subset` (src/kernel/groups.c lines 159-177): merge-style test that
every element of the first sorted list occurs in the second sorted list. -/
def is_subset (g1 g2 : List ℕ) : Bool :=
  match g1 with
  | [] => true
  | gid1 :: t1 =>
    match g2.dropWhile (fun gid2 => gid2 < gid1) with
    | [] => false
    | gid2 :: t2 => if gid1 = gid2 then is_subset t1 t2 else false

example : is_subset [2, 7] [1, 2, 5, 7, 9] = true := by decide
example : is_subset [2, 7] [1, 2, 5, 9] = false := by decide
example : is_subset [] [1, 2] = true := by decide
example : is_subset [1, 1] [1] = false := by decide
example : is_subset [200] [100, 200] = true := by decide
example : is_subset [200, 400] [100, 200] = false := by decide

/-!
## Group Set Container (`groups_alloc` / `groups_free`, groups.c lines 14-61)

`struct group_info` carries `ngroups`, `nblocks`, the refcount `usage`, the
block pointers and the inline `small_block`.  The model records whether
`blocks[0] == small_block` (`inlineBlock`) and the flat identifier sequence
(`gids`, freshly allocated memory modelled as zeros).  Allocation failure is
injected through `kmallocOk` (the container `kmalloc`) and `pageOk i` (the
`__get_free_page` for block `i`).  A live-allocation counter threads through
the calls so that leak claims are statements about the counter returning to
baseline; `kmalloc`/`__get_free_page` increment it, `kfree`/`free_page`
decrement it.
-/

/-- The model of `struct group_info` (kernel headers; fields as used by
src/kernel/groups.c). -/
structure GroupInfo where
  ngroups : ℕ
  nblocks : ℕ
  usage : ℕ
  inlineBlock : Bool
  gids : List ℕ
deriving DecidableEq, Repr

/-- The `while (--i >= 0) free_page(...)` undo loop of `groups_alloc`
(groups.c lines 44-46): free the `i` pages already allocated. -/
def undoLoop (i live : ℕ) : ℕ :=
  match i with
  | 0 => live
  | j + 1 => undoLoop j (live - 1)

/-- The `for (i = 0; i < nblocks; i++)` page-allocation loop of `groups_alloc`
(groups.c lines 33-39): returns whether every `__get_free_page` succeeded and
the live-allocation count (after the undo loop, on failure). -/
def allocLoop (pageOk : ℕ → Bool) (nblocks i live : ℕ) : Bool × ℕ :=
  if i < nblocks then
    if pageOk i then allocLoop pageOk nblocks (i + 1) (live + 1)
    else (false, undoLoop i live)
  else (true, live)
termination_by nblocks - i
decreasing_by omega

/-- `groups_alloc` (src/kernel/groups.c lines 14-49): returns the constructed
`group_info` (or `none` on allocation failure, i.e. `OutOfMemory`) together
with the number of live allocations attributable to this call. -/
def groups_alloc (gidsetsize : ℕ) (kmallocOk : Bool) (pageOk : ℕ → Bool) :
    Option GroupInfo × ℕ :=
  let nblocks0 := (gidsetsize + NGROUPS_PER_BLOCK - 1) / NGROUPS_PER_BLOCK
  let nblocks := if nblocks0 = 0 then 1 else nblocks0
  if kmallocOk = false then (none, 0)
  else if gidsetsize ≤ NGROUPS_SMALL then
    (some ⟨gidsetsize, nblocks, 1, true, List.replicate gidsetsize 0⟩, 1)
  else
    match allocLoop pageOk nblocks 0 1 with
    | (true, live) =>
      (some ⟨gidsetsize, nblocks, 1, false, List.replicate gidsetsize 0⟩, live)
    | (false, live) => (none, live - 1)

/-- The `for (i = 0; i < group_info->nblocks; i++) free_page(...)` loop of
`groups_free` (groups.c lines 57-58). -/
def freeLoop (n live : ℕ) : ℕ :=
  match n with
  | 0 => live
  | m + 1 => freeLoop m (live - 1)

/-- `groups_free` (src/kernel/groups.c lines 53-61): free every independently
allocated block (skipping the inline block) and then the container; returns
the updated live-allocation count. -/
def groups_free (gi : GroupInfo) (live : ℕ) : ℕ :=
  (if gi.inlineBlock = false then freeLoop gi.nblocks live else live) - 1

/-- `get_group_info` (kernel headers): `atomic_inc(&gi->usage)`. -/
def get_group_info (usage : ℕ) : ℕ := usage + 1

/-- `put_group_info` (kernel headers): `atomic_dec_and_test` followed by
`groups_free` at zero; the object is live iff the result is nonzero. -/
def put_group_info (usage : ℕ) : ℕ := usage - 1

/-!
## Boundary Transfer (`groups_to_user` / `groups_from_user`, lines 66-103)

User memory is external: a read of slot `i` (`get_user`) yields either a fault
or a raw value (`reads : ℕ → UserRead`); namespace translation
(`make_kgid`/`gid_valid`) is `makeKgid : ℕ → Option ℕ` with `none` for an
invalid identifier; `from_kgid_munged` is `munge : ℕ → ℕ`; writability of slot
`i` (`put_user`) is `writeOk : ℕ → Bool`.  `groups_to_user` also returns the
list of `(index, value)` writes actually performed, so that "writes nothing" /
"writes exactly count identifiers" are statable.
-/

/-- Outcome of `get_user` on one user-space slot. -/
inductive UserRead where
  | fault : UserRead
  | val : ℕ → UserRead
deriving DecidableEq, Repr

/-- The per-element loop of `groups_to_user` (groups.c lines 73-78). -/
def toUserLoop (l : List ℕ) (munge : ℕ → ℕ) (writeOk : ℕ → Bool)
    (count i : ℕ) (acc : List (ℕ × ℕ)) : Int × List (ℕ × ℕ) :=
  if i < count then
    let gid := munge (l.getD i 0)
    if writeOk i then toUserLoop l munge writeOk count (i + 1) (acc ++ [(i, gid)])
    else (-EFAULT, acc)
  else (0, acc)
termination_by count - i
decreasing_by omega

/-- `groups_to_user` (src/kernel/groups.c lines 66-80): export the group list
to user space, translating each identifier; `-EFAULT` on the first failing
`put_user`.  Returns the writes performed. -/
def groups_to_user (group_info : List ℕ) (munge : ℕ → ℕ)
    (writeOk : ℕ → Bool) : Int × List (ℕ × ℕ) :=
  toUserLoop group_info munge writeOk group_info.length 0 []

/-- The per-element loop of `groups_from_user` (groups.c lines 90-101). -/
def fromUserLoop (reads : ℕ → UserRead) (makeKgid : ℕ → Option ℕ)
    (count i : ℕ) (gids : List ℕ) : Except Int (List ℕ) :=
  if i < count then
    match reads i with
    | .fault => .error (-EFAULT)
    | .val gid =>
      match makeKgid gid with
      | none => .error (-EINVAL)
      | some kgid => fromUserLoop reads makeKgid count (i + 1) (gids.set i kgid)
  else .ok gids
termination_by count - i
decreasing_by omega

/-- `groups_from_user` (src/kernel/groups.c lines 83-103): fill an
already-allocated `group_info` from a user-space array; `-EFAULT` on a failing
`get_user`, `-EINVAL` on an identifier that does not resolve. -/
def groups_from_user (gi : GroupInfo) (reads : ℕ → UserRead)
    (makeKgid : ℕ → Option ℕ) : Except Int GroupInfo :=
  match fromUserLoop reads makeKgid gi.ngroups 0 gi.gids with
  | .error e => .error e
  | .ok gids => .ok { gi with gids := gids }

/-!
## Credentials and installers (groups.c lines 184-233)

`struct cred` is external (kernel headers); the fields this file uses are
`gid` (real), `egid` (effective), `fsgid` (filesystem) and the `group_info`
reference.  `prepare_creds`/`abort_creds`/`commit_creds` are external
collaborators: `prepare_creds` yields a private copy of the current
credentials (failure injected via `prepOk`), `commit_creds` publishes the
draft as the caller's current credentials and returns 0.
-/

/-- The fields of `struct cred` (kernel headers) used by
src/kernel/groups.c. -/
structure Cred where
  gid : ℕ
  egid : ℕ
  fsgid : ℕ
  group_info : List ℕ
deriving DecidableEq, Repr

/-- `set_groups_sorted` (src/kernel/groups.c lines 184-189):
`put_group_info(new->group_info); get_group_info(group_info);`
`new->group_info = group_info;`.  Takes and returns the refcounts of the
incoming `group_info` and of the draft's previous set. -/
def set_groups_sorted (new : Cred) (group_info : List ℕ)
    (giUsage oldUsage : ℕ) : Cred × ℕ × ℕ :=
  ({ new with group_info := group_info },
    get_group_info giUsage, put_group_info oldUsage)

/-- `set_groups` (src/kernel/groups.c lines 199-204): sort, install into the
given credential draft, return 0.  The result is the updated draft, the two
updated refcounts, and the return value. -/
def set_groups (new : Cred) (group_info : List ℕ) (giUsage oldUsage : ℕ) :
    Cred × ℕ × ℕ × Int :=
  let sorted := groups_sort group_info
  let r := set_groups_sorted new sorted giUsage oldUsage
  (r.1, r.2.1, r.2.2, 0)

/-- Modelled from the spec: `commit_creds` (external credential-management
collaborator, not under `src/`) publishes the draft atomically and signals
success. -/
def commit_creds : Int := 0

/-- `set_current_groups` (src/kernel/groups.c lines 215-231).  `current` is
the caller's current credentials; `capSetgid` is
`ns_capable(current_user_ns(), CAP_SETGID)`; `prepOk` injects the
`prepare_creds` outcome; `giUsage` is the refcount of the requested
`group_info`.  Returns `(retval, caller's current credentials after the call,
refcount of the requested group_info after the call)`.  On the `abort_creds`
paths the caller's credentials are untouched; on success the draft (a copy of
`current` whose `group_info` was replaced by `set_groups_sorted`, which also
retained a reference) is committed.  The refcount traffic on the *previous*
set (`prepare_creds` takes a reference that `set_groups_sorted`'s
`put_group_info` or `abort_creds` drops) nets to zero and is not tracked. -/
def set_current_groups (capSetgid : Bool) (prepOk : Bool) (current : Cred)
    (group_info : List ℕ) (giUsage : ℕ) : Int × Cred × ℕ :=
  let gi := groups_sort group_info
  if prepOk = false then (-ENOMEM, current, giUsage)
  else if capSetgid = false ∧ is_subset gi current.group_info = false then
    (-EPERM, current, giUsage)
  else
    (commit_creds, { current with group_info := gi }, get_group_info giUsage)

/-- `may_setgroups` (src/kernel/groups.c lines 259-264):
`ns_capable(current_user_ns(), CAP_SETGID)`. -/
def may_setgroups (nsCapableSetgid : Bool) : Bool := nsCapableSetgid

/-- The C cast `(unsigned)gidsetsize` of a 32-bit `int`. -/
def castUnsigned (g : Int) : ℕ := (g % (2 ^ 32 : Int)).toNat

/-- `sys_setgroups` (src/kernel/groups.c lines 271-294,
`SYSCALL_DEFINE2(setgroups, ...)`).  Returns `(retval, caller's current
credentials after the call, fate of the allocated group_info)`: `none` when
the call returned before `groups_alloc` succeeded, `some u` with `u` the
refcount of the allocated `group_info` at return (0 means it was freed). -/
def sys_setgroups (capSetgid prepOk kmallocOk : Bool) (pageOk : ℕ → Bool)
    (gidsetsize : Int) (reads : ℕ → UserRead) (makeKgid : ℕ → Option ℕ)
    (current : Cred) : Int × Cred × Option ℕ :=
  if may_setgroups capSetgid = false then (-EPERM, current, none)
  else if NGROUPS_MAX < castUnsigned gidsetsize then (-EINVAL, current, none)
  else
    -- here 0 ≤ gidsetsize ≤ NGROUPS_MAX, so the `int` equals its cast
    match (groups_alloc (castUnsigned gidsetsize) kmallocOk pageOk).1 with
    | none => (-ENOMEM, current, none)
    | some gi =>
      match groups_from_user gi reads makeKgid with
      | .error e => (e, current, some (put_group_info gi.usage))
      | .ok gi2 =>
        let r := set_current_groups capSetgid prepOk current gi2.gids gi2.usage
        (r.1, r.2.1, some (put_group_info r.2.2))

/-- `sys_getgroups` (src/kernel/groups.c lines 235-257,
`SYSCALL_DEFINE2(getgroups, ...)`).  Returns the syscall result and the list
of `(index, value)` user-space writes performed. -/
def sys_getgroups (current : Cred) (gidsetsize : Int) (munge : ℕ → ℕ)
    (writeOk : ℕ → Bool) : Int × List (ℕ × ℕ) :=
  if gidsetsize < 0 then (-EINVAL, [])
  else
    let i : Int := current.group_info.length
    if gidsetsize ≠ 0 then
      if gidsetsize < i then (-EINVAL, [])
      else
        let r := groups_to_user current.group_info munge writeOk
        if r.1 ≠ 0 then (-EFAULT, r.2) else (i, r.2)
    else (i, [])

/-!
## Membership Queries (`in_group_p` / `in_egroup_p`, groups.c lines 299-335)

`get_dumpTsk()` is an `extern` whose definition is not under `src/`; modelled
from the spec: `isDumpTask` says whether the current process is the
coredump-capture task (`get_dumpTsk() == current`).
-/

/-- `in_group_p` (src/kernel/groups.c lines 306-321): coredump special case
for `AID_SDCARD_RW`/`AID_SDCARD_R`, then the `fsgid` fast path, else binary
search of the current supplementary set. -/
def in_group_p (isDumpTask : Bool) (cred : Cred) (grp : ℕ) : Bool :=
  if isDumpTask ∧ (grp = AID_SDCARD_RW ∨ grp = AID_SDCARD_R) then true
  else if grp ≠ cred.fsgid then groups_search (some cred.group_info) grp
  else true

/-- `in_egroup_p` (src/kernel/groups.c lines 325-333): `egid` fast path, else
binary search of the current supplementary set. -/
def in_egroup_p (cred : Cred) (grp : ℕ) : Bool :=
  if grp ≠ cred.egid then groups_search (some cred.group_info) grp
  else true

example : in_group_p true ⟨0, 0, 0, []⟩ 1015 = true := by
  simp [in_group_p, AID_SDCARD_RW, AID_SDCARD_R]
example : in_group_p false ⟨0, 0, 0, []⟩ 1015 = false := by
  simp [in_group_p, groups_search, searchLoop, AID_SDCARD_RW, AID_SDCARD_R]
example : in_group_p false ⟨5, 9, 7, []⟩ 7 = true := by
  simp [in_group_p, AID_SDCARD_RW, AID_SDCARD_R]
example : in_egroup_p ⟨5, 9, 7, [3, 8]⟩ 8 = true := by
  simp [in_egroup_p, groups_search, searchLoop]

/-!
## Correctness of the Subset Checker
-/

/-- If `dropWhile` stops at an element, the predicate fails on it. -/
lemma dropWhile_eq_cons_head_false {p : ℕ → Bool} : ∀ (l : List ℕ) (h : ℕ)
    (t : List ℕ), l.dropWhile p = h :: t → p h = false := by
  intro l
  induction l with
  | nil => intro h t hyp; exact absurd hyp (by simp)
  | cons a l ih =>
    intro h t hyp
    rw [List.dropWhile_cons] at hyp
    by_cases hpa : p a = true
    · rw [if_pos hpa] at hyp; exact ih h t hyp
    · rw [if_neg hpa] at hyp
      obtain ⟨rfl, -⟩ := List.cons.injEq .. ▸ hyp
      simpa using hpa

/-- Everything `is_subset` accepted is really present: each matched element of
`g1` is found in (a suffix of) `g2`.  No sortedness is needed for this
direction. -/
lemma is_subset_sound : ∀ (g1 g2 : List ℕ), is_subset g1 g2 = true →
    ∀ x ∈ g1, x ∈ g2 := by
  intro g1
  induction g1 with
  | nil => intro g2 _ x hx; exact absurd hx (List.not_mem_nil x)
  | cons gid1 t1 ih =>
    intro g2 hsub x hx
    rw [is_subset] at hsub
    rcases hdw : g2.dropWhile (fun gid2 => gid2 < gid1) with _ | ⟨gid2, t2⟩
    · rw [hdw] at hsub; exact absurd hsub (by simp)
    · rw [hdw] at hsub
      have hsub2 : (if gid1 = gid2 then is_subset t1 t2 else false) = true := hsub
      by_cases heq : gid1 = gid2
      · rw [if_pos heq] at hsub2
        have hsubl : (gid2 :: t2).Sublist g2 := by
          rw [← hdw]; exact List.dropWhile_sublist _
        rcases List.mem_cons.mp hx with rfl | hxt
        · exact hsubl.subset (heq ▸ List.mem_cons_self gid2 t2)
        · have : x ∈ t2 := ih t2 hsub2 x hxt
          exact hsubl.subset (List.mem_cons_of_mem _ this)
      · rw [if_neg heq] at hsub2; exact absurd hsub2 (by simp)

/-- On sorted inputs whose left side has no duplicates, `is_subset` accepts
whenever every element of `g1` occurs in `g2`. -/
lemma is_subset_complete : ∀ (g1 g2 : List ℕ), g1.Sorted (· ≤ ·) →
    g1.Nodup → g2.Sorted (· ≤ ·) → (∀ x ∈ g1, x ∈ g2) →
    is_subset g1 g2 = true := by
  intro g1
  induction g1 with
  | nil => intro g2 _ _ _ _; rfl
  | cons gid1 t1 ih =>
    intro g2 hs1 hnd1 hs2 hmem
    have hg1 : gid1 ∈ g2 := hmem gid1 (List.mem_cons_self _ _)
    -- split g2 at the first element that is not < gid1
    have hsplit := List.takeWhile_append_dropWhile
      (fun gid2 => decide (gid2 < gid1)) g2
    have hgd : gid1 ∈ g2.dropWhile (fun gid2 => decide (gid2 < gid1)) := by
      rcases List.mem_append.mp (hsplit ▸ hg1) with h | h
      · have := List.mem_takeWhile_imp h
        simp at this
      · exact h
    rcases hdw : g2.dropWhile (fun gid2 => decide (gid2 < gid1)) with _ | ⟨h2, t2⟩
    · rw [hdw] at hgd; exact absurd hgd (List.not_mem_nil _)
    · have hsubl : (h2 :: t2).Sublist g2 := by
        rw [← hdw]; exact List.dropWhile_sublist _
      have hsort2 : (h2 :: t2).Sorted (· ≤ ·) := List.Pairwise.sublist hsubl hs2
      -- the stop element is exactly gid1
      have hstop : ¬ h2 < gid1 := by
        have := dropWhile_eq_cons_head_false g2 h2 t2 hdw
        simpa using this
      have hh2 : gid1 = h2 := by
        rw [hdw] at hgd
        rcases List.mem_cons.mp hgd with h | h
        · exact h
        · have := (List.sorted_cons.mp hsort2).1 gid1 h
          omega
      rw [is_subset, hdw]
      show (if gid1 = h2 then is_subset t1 t2 else false) = true
      rw [if_pos hh2]
      -- recurse on the tails
      refine ih t2 (List.sorted_cons.mp hs1).2 (List.nodup_cons.mp hnd1).2
        (List.sorted_cons.mp hsort2).2 ?_
      intro x hx
      have hxg2 : x ∈ g2 := hmem x (List.mem_cons_of_mem _ hx)
      have hgt : gid1 < x := by
        have hle := (List.sorted_cons.mp hs1).1 x hx
        have hne : gid1 ≠ x := by
          rintro rfl; exact (List.nodup_cons.mp hnd1).1 hx
        omega
      rcases List.mem_append.mp (hsplit ▸ hxg2) with h | h
      · have := List.mem_takeWhile_imp h
        simp at this
        omega
      · rw [hdw] at h
        rcases List.mem_cons.mp h with rfl | h
        · omega
        · exact h

/-- `is_subset` of a sorted list in itself always holds (duplicates
permitted). -/
lemma is_subset_self : ∀ (g : List ℕ), g.Sorted (· ≤ ·) →
    is_subset g g = true := by
  intro g
  induction g with
  | nil => intro _; rfl
  | cons gid t ih =>
    intro hs
    rw [is_subset]
    have : (gid :: t).dropWhile (fun gid2 => decide (gid2 < gid)) = gid :: t := by
      rw [List.dropWhile_cons]
      simp
    rw [this]
    show (if gid = gid then is_subset t t else false) = true
    rw [if_pos rfl]
    exact ih (List.sorted_cons.mp hs).2

/-!
## Correctness of the Search Engine
-/

/-- In a non-decreasing list, `getD` is monotone on in-range indices. -/
lemma getD_mono_of_sorted {l : List ℕ} (hl : l.Sorted (· ≤ ·)) {i j : ℕ}
    (hij : i ≤ j) (hj : j < l.length) : l.getD i 0 ≤ l.getD j 0 := by
  have hi : i < l.length := lt_of_le_of_lt hij hj
  rw [List.getD_eq_getElem _ _ hi, List.getD_eq_getElem _ _ hj]
  rcases eq_or_lt_of_le hij with rfl | h
  · exact le_refl _
  · exact List.pairwise_iff_getElem.mp hl i j hi hj h

/-- The binary-search loop finds `grp` exactly when it occurs at an index in
`[left, right)`, provided the list is sorted. -/
lemma searchLoop_true_iff {l : List ℕ} (hl : l.Sorted (· ≤ ·)) (grp : ℕ) :
    ∀ (fuel left right : ℕ), right - left ≤ fuel → right ≤ l.length →
      (searchLoop l grp left right = true ↔
        ∃ i, left ≤ i ∧ i < right ∧ l.getD i 0 = grp) := by
  intro fuel
  induction fuel with
  | zero =>
    intro left right hfuel _
    rw [searchLoop]
    have : ¬ left < right := by omega
    simp only [if_neg this]
    constructor
    · intro h; exact absurd h (by simp)
    · rintro ⟨i, h1, h2, _⟩; omega
  | succ n ih =>
    intro left right hfuel hr
    rw [searchLoop]
    by_cases hlr : left < right
    · simp only [if_pos hlr]
      have hmidlt : (left + right) / 2 < right := by omega
      have hmidge : left ≤ (left + right) / 2 := by omega
      have hmidlen : (left + right) / 2 < l.length := lt_of_lt_of_le hmidlt hr
      by_cases h1 : l.getD ((left + right) / 2) 0 < grp
      · simp only [if_pos h1]
        rw [ih ((left + right) / 2 + 1) right (by omega) hr]
        constructor
        · rintro ⟨i, h2, h3, h4⟩; exact ⟨i, by omega, h3, h4⟩
        · rintro ⟨i, h2, h3, h4⟩
          refine ⟨i, ?_, h3, h4⟩
          by_contra hcon
          have hile : i ≤ (left + right) / 2 := by omega
          have := getD_mono_of_sorted hl hile hmidlen
          omega
      · simp only [if_neg h1]
        by_cases h2 : grp < l.getD ((left + right) / 2) 0
        · simp only [if_pos h2]
          rw [ih left ((left + right) / 2) (by omega) (le_of_lt hmidlen)]
          constructor
          · rintro ⟨i, h3, h4, h5⟩; exact ⟨i, h3, by omega, h5⟩
          · rintro ⟨i, h3, h4, h5⟩
            refine ⟨i, h3, ?_, h5⟩
            by_contra hcon
            have hile : (left + right) / 2 ≤ i := by omega
            have hilen : i < l.length := lt_of_lt_of_le h4 hr
            have := getD_mono_of_sorted hl hile hilen
            omega
        · simp only [if_neg h2]
          have heq : l.getD ((left + right) / 2) 0 = grp := by omega
          simp only [true_iff]
          exact ⟨(left + right) / 2, hmidge, hmidlt, heq⟩
    · simp only [if_neg hlr]
      constructor
      · intro h; exact absurd h (by simp)
      · rintro ⟨i, h1, h2, _⟩; omega

/-!
## Correctness of the Sort Engine: permutation

Each pass of the Shell sort only moves values between positions, so the
result is a permutation of the input.  The key step: the shift loop followed
by the final write of `tmp` has the same multiset effect as writing `tmp`
straight into the right-hand slot.
-/

/-- Writing back the value already stored at an in-range position is the
identity. -/
lemma set_getD_self : ∀ (l : List ℕ) (i : ℕ), i < l.length →
    l.set i (l.getD i 0) = l := by
  intro l
  induction l with
  | nil => intro i hi; exact absurd hi (by simp)
  | cons a t ih =>
    intro i hi
    cases i with
    | zero => simp
    | succ j =>
      rw [List.getD_cons_succ, List.set_cons_succ]
      rw [ih j (by simpa using hi)]

/-- Exchanging a cons cell's head with the value written at an in-range
position of the tail is a permutation. -/
lemma cons_set_swap (x y : ℕ) : ∀ (t : List ℕ) (k : ℕ), k < t.length →
    (x :: t.set k y).Perm (y :: t.set k x) := by
  intro t
  induction t with
  | nil => intro k hk; exact absurd hk (by simp)
  | cons b t ih =>
    intro k hk
    cases k with
    | zero =>
      rw [List.set_cons_zero, List.set_cons_zero]
      exact List.Perm.swap y x t
    | succ j =>
      rw [List.set_cons_succ, List.set_cons_succ]
      have h1 : (x :: b :: t.set j y).Perm (b :: x :: t.set j y) :=
        List.Perm.swap b x _
      have h2 : (b :: x :: t.set j y).Perm (b :: y :: t.set j x) :=
        List.Perm.cons b (ih j (by simpa using hk))
      have h3 : (b :: y :: t.set j x).Perm (y :: b :: t.set j x) :=
        List.Perm.swap y b _
      exact (h1.trans h2).trans h3

/-- Writing `x` at `i` and `y` at `j` is, up to permutation, the same as
writing `y` at `i` and `x` at `j`. -/
lemma set_set_swap_perm : ∀ (l : List ℕ) (i j : ℕ), i < j → j < l.length →
    ∀ (x y : ℕ), ((l.set i x).set j y).Perm ((l.set i y).set j x) := by
  intro l
  induction l with
  | nil => intro i j _ hj; exact absurd hj (by simp)
  | cons a t ih =>
    intro i j hij hj x y
    cases i with
    | zero =>
      obtain ⟨j', rfl⟩ : ∃ j', j = j' + 1 := ⟨j - 1, by omega⟩
      rw [List.set_cons_zero, List.set_cons_zero, List.set_cons_succ,
        List.set_cons_succ]
      exact cons_set_swap x y t j' (by simpa using hj)
    | succ i' =>
      obtain ⟨j', rfl⟩ : ∃ j', j = j' + 1 := ⟨j - 1, by omega⟩
      rw [List.set_cons_succ, List.set_cons_succ, List.set_cons_succ,
        List.set_cons_succ]
      exact List.Perm.cons a (ih i' j' (by omega) (by simpa using hj) x y)

/-- The shift loop plus the final write of `tmp` permutes the array exactly
like writing `tmp` at the insertion slot directly. -/
lemma innerWhile_perm (stride : ℕ) (hs : 0 < stride) (tmp : ℕ) :
    ∀ (fuel : ℕ) (l : List ℕ) (left : Int) (right : ℕ),
      (left + 1).toNat ≤ fuel →
      (0 ≤ left → left.toNat + stride = right) → right < l.length →
      (innerWhile stride hs tmp l left right).Perm (l.set right tmp) := by
  intro fuel
  induction fuel with
  | zero =>
    intro l left right hfuel hlr hr
    rw [innerWhile]
    have : ¬ (0 ≤ left ∧ tmp < l.getD left.toNat 0) := by
      rintro ⟨h0, -⟩; omega
    rw [if_neg this]
  | succ n ih =>
    intro l left right hfuel hlr hr
    rw [innerWhile]
    by_cases hc : 0 ≤ left ∧ tmp < l.getD left.toNat 0
    · rw [if_pos hc]
      have hlt : left.toNat + stride = right := hlr hc.1
      have hltlen : left.toNat < l.length := by omega
      have hperm := ih (l.set right (l.getD left.toNat 0)) (left - stride)
        left.toNat (by omega)
        (by intro h0; omega)
        (by rw [List.length_set]; omega)
      refine hperm.trans ?_
      -- (l.set right l[left]).set left tmp ~ l.set right tmp
      have hne : right ≠ left.toNat := by omega
      rw [List.set_comm _ _ _ hne]
      have := set_set_swap_perm l left.toNat right (by omega) hr tmp
        (l.getD left.toNat 0)
      refine this.trans ?_
      rw [set_getD_self l left.toNat hltlen]
    · rw [if_neg hc]

/-- One insertion step leaves the array a permutation of itself (in fact the
identity as a multiset: the element taken out is the one put back in). -/
lemma insertStep_perm (stride : ℕ) (hs : 0 < stride) (l : List ℕ) (base : ℕ)
    (h : base + stride < l.length) : (insertStep stride hs l base).Perm l := by
  rw [insertStep]
  have := innerWhile_perm stride hs (l.getD (base + stride) 0)
    ((base : Int) + 1).toNat l (base : Int) (base + stride) (le_refl _)
    (by intro _; omega) h
  refine this.trans ?_
  rw [set_getD_self l (base + stride) h]

/-- The base loop of a pass permutes the array. -/
lemma baseLoop_perm (stride : ℕ) (hs : 0 < stride) (max : ℕ) :
    ∀ (fuel base : ℕ) (l : List ℕ), max - base ≤ fuel →
      max + stride ≤ l.length →
      (baseLoop stride hs max l base).Perm l := by
  intro fuel
  induction fuel with
  | zero =>
    intro base l hfuel hlen
    rw [baseLoop]
    have : ¬ base < max := by omega
    rw [if_neg this]
  | succ n ih =>
    intro base l hfuel hlen
    rw [baseLoop]
    by_cases hb : base < max
    · rw [if_pos hb]
      have hstep : (insertStep stride hs l base).Perm l :=
        insertStep_perm stride hs l base (by omega)
      have hlen2 : max + stride ≤ (insertStep stride hs l base).length := by
        rw [hstep.length_eq]; exact hlen
      exact (ih (base + 1) (insertStep stride hs l base) (by omega)
        hlen2).trans hstep
    · rw [if_neg hb]

/-- A full gap pass permutes the array. -/
lemma onePass_perm (stride : ℕ) (hs : 0 < stride) (l : List ℕ) :
    (onePass stride hs l).Perm l := by
  rw [onePass]
  by_cases hsl : stride ≤ l.length
  · exact baseLoop_perm stride hs (l.length - stride) (l.length - stride) 0 l
      (by omega) (by omega)
  · have hmax : l.length - stride = 0 := by omega
    rw [hmax, baseLoop]
    simp

/-- The stride loop permutes the array. -/
lemma strideLoop_perm : ∀ (stride : ℕ) (l : List ℕ),
    (strideLoop l stride).Perm l := by
  intro stride
  induction stride using Nat.strong_induction_on with
  | _ stride ih =>
    intro l
    rw [strideLoop]
    by_cases h : stride = 0
    · rw [dif_pos h]
    · rw [dif_neg h]
      have hdiv : stride / 3 < stride :=
        Nat.div_lt_self (Nat.pos_of_ne_zero h) (by omega)
      exact (ih (stride / 3) hdiv _).trans
        (onePass_perm stride (Nat.pos_of_ne_zero h) l)

/-- `groups_sort` returns a permutation of its input. -/
lemma groups_sort_perm (l : List ℕ) : (groups_sort l).Perm l :=
  strideLoop_perm _ l

/-!
## Correctness of the Sort Engine: sortedness

Only the last pass matters for sortedness: the stride sequence
`1, 4, 13, 40, …` always ends with a gap-1 pass, which is a plain insertion
sort.  `innerWhile_insert` characterises one gap-1 insertion completely.
-/

/-- Reading just past a prefix returns the head of the suffix. -/
lemma getD_append_length : ∀ (q : List ℕ) (a : ℕ) (t : List ℕ) (d : ℕ),
    (q ++ a :: t).getD q.length d = a := by
  intro q a t d
  rw [List.getD_append_right q (a :: t) d q.length (le_refl _)]
  simp

/-- Writing just past a prefix replaces the head of the suffix. -/
lemma set_append_length : ∀ (q : List ℕ) (a v : ℕ) (t : List ℕ),
    (q ++ a :: t).set q.length v = q ++ v :: t := by
  intro q a v t
  rw [List.set_append]
  simp

/-- Complete description of one gap-1 insertion: starting from
`p₁ ++ x :: (p₂ ++ r)` with the hole at position `|p₁|` (value `x` is dead:
`tmp` was already saved from it), cursor at the end of `p₁`, and every element
of `p₂` strictly greater than `tmp`, the loop splits `p₁ = q₁ ++ q₂` at the
insertion point and produces `q₁ ++ tmp :: (q₂ ++ (p₂ ++ r))`. -/
lemma innerWhile_insert (h1 : 0 < 1) (tmp : ℕ) : ∀ (p₁ : List ℕ),
    ∀ (x : ℕ) (p₂ r : List ℕ), (p₁ ++ p₂).Sorted (· ≤ ·) →
    (∀ y ∈ p₂, tmp < y) →
    ∃ q₁ q₂, p₁ = q₁ ++ q₂ ∧ (∀ y ∈ q₂, tmp < y) ∧ (∀ y ∈ q₁, y ≤ tmp) ∧
      innerWhile 1 h1 tmp (p₁ ++ x :: (p₂ ++ r)) ((p₁.length : Int) - 1)
        p₁.length = q₁ ++ tmp :: (q₂ ++ (p₂ ++ r)) := by
  intro p₁
  induction p₁ using List.reverseRecOn with
  | nil =>
    intro x p₂ r _ _
    refine ⟨[], [], rfl, by simp, by simp, ?_⟩
    rw [innerWhile]
    have hneg : ¬ ((0 : Int) ≤ (([] : List ℕ).length : Int) - 1 ∧
        tmp < (([] : List ℕ) ++ x :: (p₂ ++ r)).getD
          ((([] : List ℕ).length : Int) - 1).toNat 0) := by
      simp
    rw [if_neg hneg]
    simp
  | append_singleton q lst ih =>
    intro x p₂ r hsort hp2
    have hlen : (((q ++ [lst]).length : Int) - 1) = (q.length : Int) := by
      simp
    have hlist : (q ++ [lst]) ++ x :: (p₂ ++ r) = q ++ lst :: (x :: (p₂ ++ r)) := by
      simp
    rw [innerWhile]
    have htonat : (((q ++ [lst]).length : Int) - 1).toNat = q.length := by
      simp
    have hgetD : ((q ++ [lst]) ++ x :: (p₂ ++ r)).getD
        ((((q ++ [lst]).length : Int) - 1)).toNat 0 = lst := by
      rw [htonat, hlist, getD_append_length]
    by_cases hcase : tmp < lst
    · have hcond : (0 : Int) ≤ ((q ++ [lst]).length : Int) - 1 ∧
          tmp < ((q ++ [lst]) ++ x :: (p₂ ++ r)).getD
            ((((q ++ [lst]).length : Int) - 1)).toNat 0 := by
        constructor
        · simp
        · rw [hgetD]; exact hcase
      rw [if_pos hcond]
      -- the write `a[right] := a[left]` duplicates `lst` into the hole
      have hset : ((q ++ [lst]) ++ x :: (p₂ ++ r)).set (q ++ [lst]).length
          (((q ++ [lst]) ++ x :: (p₂ ++ r)).getD
            ((((q ++ [lst]).length : Int) - 1)).toNat 0)
          = q ++ lst :: ((lst :: p₂) ++ r) := by
        rw [hgetD, set_append_length]
        simp
      have hsort2 : (q ++ (lst :: p₂)).Sorted (· ≤ ·) := by
        have : (q ++ [lst]) ++ p₂ = q ++ (lst :: p₂) := by simp
        rw [← this]
        exact hsort
      have hp2' : ∀ y ∈ lst :: p₂, tmp < y := by
        intro y hy
        rcases List.mem_cons.mp hy with rfl | hy
        · exact hcase
        · exact hp2 y hy
      obtain ⟨q₁, q₂, hsplit, hq2, hq1, hrec⟩ := ih lst (lst :: p₂) r hsort2 hp2'
      refine ⟨q₁, q₂ ++ [lst], by rw [hsplit]; simp, ?_, hq1, ?_⟩
      · intro y hy
        rcases List.mem_append.mp hy with hy | hy
        · exact hq2 y hy
        · rcases List.mem_singleton.mp hy with rfl
          exact hcase
      · rw [hset, hlen]
        simp only [Int.toNat_natCast, Nat.cast_one]
        rw [hrec]
        simp
    · have hcond : ¬ ((0 : Int) ≤ ((q ++ [lst]).length : Int) - 1 ∧
          tmp < ((q ++ [lst]) ++ x :: (p₂ ++ r)).getD
            ((((q ++ [lst]).length : Int) - 1)).toNat 0) := by
        rw [hgetD]
        intro h
        exact hcase h.2
      rw [if_neg hcond]
      refine ⟨q ++ [lst], [], by simp, by simp, ?_, ?_⟩
      · intro y hy
        rcases List.mem_append.mp hy with hy | hy
        · -- y ∈ q: y ≤ lst ≤ tmp by sortedness of q ++ [lst] ++ p₂
          have : (q ++ ([lst] ++ p₂)).Sorted (· ≤ ·) := by
            have : (q ++ [lst]) ++ p₂ = q ++ ([lst] ++ p₂) := by simp
            rw [← this]; exact hsort
          have hle := (List.pairwise_append.mp this).2.2 y hy lst
            (List.mem_append.mpr (Or.inl (List.mem_singleton_self _)))
          omega
        · rcases List.mem_singleton.mp hy with rfl
          omega
      · rw [set_append_length]
        simp

/-- The invariant of the gap-1 base loop: a sorted prefix `P` covering
positions `0 … base` and an untouched suffix `R`; the loop returns a sorted
list. -/
lemma baseLoop_one_sorted (h1 : 0 < 1) (max : ℕ) : ∀ (fuel base : ℕ)
    (P R : List ℕ), max - base ≤ fuel → P.Sorted (· ≤ ·) →
    P.length = base + 1 → max + 1 = P.length + R.length →
    (baseLoop 1 h1 max (P ++ R) base).Sorted (· ≤ ·) := by
  intro fuel
  induction fuel with
  | zero =>
    intro base P R hfuel hP hlen htot
    rw [baseLoop]
    have hbm : ¬ base < max := by omega
    rw [if_neg hbm]
    have : R = [] := List.length_eq_zero.mp (by omega)
    subst this
    simpa using hP
  | succ n ih =>
    intro base P R hfuel hP hlen htot
    rw [baseLoop]
    by_cases hbm : base < max
    · rw [if_pos hbm]
      have hR : R.length ≥ 1 := by omega
      rcases R with _ | ⟨x, R'⟩
      · exact absurd hR (by simp)
      -- identify the insert step with the characterised gap-1 insertion
      have htmp : (P ++ x :: R').getD (base + 1) 0 = x := by
        rw [← hlen, getD_append_length]
      have hstep : insertStep 1 h1 (P ++ x :: R') base =
          innerWhile 1 h1 x (P ++ x :: (([] : List ℕ) ++ R'))
            ((P.length : Int) - 1) P.length := by
        rw [insertStep, htmp, hlen]
        norm_num
      obtain ⟨q₁, q₂, hsplit, hq2, hq1, hres⟩ :=
        innerWhile_insert h1 x P x [] R' (by simpa using hP) (by simp)
      have hP'sorted : (q₁ ++ x :: q₂).Sorted (· ≤ ·) := by
        rw [hsplit] at hP
        apply List.pairwise_append.mpr
        refine ⟨List.Pairwise.sublist (List.sublist_append_left q₁ q₂) hP, ?_, ?_⟩
        · apply List.sorted_cons.mpr
          exact ⟨fun b hb => le_of_lt (hq2 b hb),
            List.Pairwise.sublist (List.sublist_append_right q₁ q₂) hP⟩
        · intro a ha b hb
          rcases List.mem_cons.mp hb with rfl | hb
          · exact hq1 a ha
          · exact (List.pairwise_append.mp hP).2.2 a ha b hb
      have hgoal : insertStep 1 h1 (P ++ x :: R') base =
          (q₁ ++ x :: q₂) ++ R' := by
        rw [hstep, hres]
        simp
      rw [hgoal]
      apply ih (base + 1) (q₁ ++ x :: q₂) R' (by omega) hP'sorted
      · have hsl := congrArg List.length hsplit
        have h2 := hlen
        simp at hsl h2 ⊢
        omega
      · have hsl := congrArg List.length hsplit
        have h2 := hlen
        have h3 := htot
        simp at hsl h2 h3 ⊢
        omega
    · rw [if_neg hbm]
      have : R = [] := List.length_eq_zero.mp (by omega)
      subst this
      simpa using hP

/-- A gap-1 pass is a full insertion sort: the result is sorted for every
input. -/
lemma onePass_one_sorted (h1 : 0 < 1) (l : List ℕ) :
    (onePass 1 h1 l).Sorted (· ≤ ·) := by
  rcases l with _ | ⟨a, t⟩
  · rw [onePass, baseLoop]
    simp
  · rw [onePass]
    have : (a :: t) = [a] ++ t := by simp
    rw [this]
    apply baseLoop_one_sorted h1 (([a] ++ t).length - 1) (([a] ++ t).length - 1)
      0 [a] t (by omega) (List.sorted_singleton a) (by simp)
    simp
    omega

/-- Chain gaps are positive. -/
lemma strideChain_pos {s : ℕ} (h : StrideChain s) : 0 < s := by
  cases h with
  | one => omega
  | step s _ => omega

/-- Running the stride loop from any chain gap ends with a gap-1 pass and so
sorts the list. -/
lemma strideLoop_sorted_of_chain : ∀ (s : ℕ), StrideChain s →
    ∀ (l : List ℕ), (strideLoop l s).Sorted (· ≤ ·) := by
  intro s
  induction s using Nat.strong_induction_on with
  | _ s ih =>
    intro hchain l
    cases hchain with
    | one =>
      rw [strideLoop]
      rw [dif_neg (by omega : ¬ (1 : ℕ) = 0)]
      have h13 : (1 : ℕ) / 3 = 0 := by norm_num
      rw [h13, strideLoop, dif_pos rfl]
      exact onePass_one_sorted _ l
    | step k hk =>
      rw [strideLoop]
      have hne : ¬ (3 * k + 1 = 0) := by omega
      rw [dif_neg hne]
      have hdiv : (3 * k + 1) / 3 = k := by omega
      rw [hdiv]
      have hklt : k < 3 * k + 1 := by
        have := strideChain_pos hk
        omega
      exact ih k hklt hk _

/-- The stride growth loop stays inside the chain. -/
lemma growStride_chain : ∀ (n fuel s : ℕ), n - s ≤ fuel → StrideChain s →
    StrideChain (growStride n s) := by
  intro n fuel
  induction fuel with
  | zero =>
    intro s hfuel hs
    rw [growStride]
    have : ¬ s < n := by omega
    rw [if_neg this]
    exact hs
  | succ m ih =>
    intro s hfuel hs
    rw [growStride]
    by_cases hsn : s < n
    · rw [if_pos hsn]
      exact ih (3 * s + 1) (by omega) (StrideChain.step s hs)
    · rw [if_neg hsn]
      exact hs

/-- The stride growth loop never shrinks its argument. -/
lemma growStride_ge : ∀ (n fuel s : ℕ), n - s ≤ fuel → s ≤ growStride n s := by
  intro n fuel
  induction fuel with
  | zero =>
    intro s hfuel
    rw [growStride]
    have : ¬ s < n := by omega
    rw [if_neg this]
  | succ m ih =>
    intro s hfuel
    rw [growStride]
    by_cases hsn : s < n
    · rw [if_pos hsn]
      have := ih (3 * s + 1) (by omega)
      omega
    · rw [if_neg hsn]

/-- `groups_sort` produces a non-decreasing sequence. -/
lemma groups_sort_sorted (l : List ℕ) : (groups_sort l).Sorted (· ≤ ·) := by
  rw [groups_sort]
  by_cases hn : l.length < 2
  · -- the gap never grows, `stride = 1 / 3 = 0`, and the loop is skipped
    have hgrow : growStride l.length 1 = 1 := by
      rw [growStride]
      rw [if_neg (by omega)]
    rw [hgrow]
    norm_num
    rw [strideLoop, dif_pos rfl]
    rcases l with _ | ⟨a, t⟩
    · simp
    · rcases t with _ | ⟨b, t'⟩
      · simp
      · simp at hn
        omega
  · -- the grown gap is `3 * k + 1` for a chain value `k`, so the loop starts
    -- at the chain gap `k`
    have hgrow : growStride l.length 1 = growStride l.length 4 := by
      rw [growStride, if_pos (by omega)]
    have hchain : StrideChain (growStride l.length 1) :=
      growStride_chain l.length l.length 1 (by omega) StrideChain.one
    have hge : (4 : ℕ) ≤ growStride l.length 1 := by
      rw [hgrow]
      exact growStride_ge l.length l.length 4 (by omega)
    generalize hG : growStride l.length 1 = g at hchain hge ⊢
    cases hchain with
    | one => omega
    | step k hk =>
      have hdiv : (3 * k + 1) / 3 = k := by omega
      rw [hdiv]
      exact strideLoop_sorted_of_chain k hk l

/-!
## Correctness of the Sort Engine: idempotence

On an already-sorted list every shift loop exits immediately and every write
restores the value already present, so each pass — at any gap — is the
identity.
-/

/-- On a sorted list an insertion step writes back what it read. -/
lemma insertStep_id (stride : ℕ) (hs : 0 < stride) (l : List ℕ) (base : ℕ)
    (hsorted : l.Sorted (· ≤ ·)) (h : base + stride < l.length) :
    insertStep stride hs l base = l := by
  rw [insertStep, innerWhile]
  have hmono := getD_mono_of_sorted hsorted
    (show base ≤ base + stride by omega) h
  have hcond : ¬ (0 ≤ (base : Int) ∧
      l.getD (base + stride) 0 < l.getD ((base : Int)).toNat 0) := by
    rw [Int.toNat_natCast]
    rintro ⟨-, hlt⟩
    omega
  rw [if_neg hcond]
  exact set_getD_self l (base + stride) h

/-- On a sorted list the base loop is the identity. -/
lemma baseLoop_id (stride : ℕ) (hs : 0 < stride) (max : ℕ) :
    ∀ (fuel base : ℕ) (l : List ℕ), max - base ≤ fuel →
      l.Sorted (· ≤ ·) → max + stride ≤ l.length →
      baseLoop stride hs max l base = l := by
  intro fuel
  induction fuel with
  | zero =>
    intro base l hfuel _ _
    rw [baseLoop, if_neg (by omega : ¬ base < max)]
  | succ n ih =>
    intro base l hfuel hsorted hlen
    rw [baseLoop]
    by_cases hb : base < max
    · rw [if_pos hb, insertStep_id stride hs l base hsorted (by omega)]
      exact ih (base + 1) l (by omega) hsorted hlen
    · rw [if_neg hb]

/-- On a sorted list every gap pass is the identity. -/
lemma onePass_id (stride : ℕ) (hs : 0 < stride) (l : List ℕ)
    (hsorted : l.Sorted (· ≤ ·)) : onePass stride hs l = l := by
  rw [onePass]
  by_cases hsl : stride ≤ l.length
  · exact baseLoop_id stride hs (l.length - stride) (l.length - stride) 0 l
      (by omega) hsorted (by omega)
  · have hmax : l.length - stride = 0 := by omega
    rw [hmax, baseLoop]
    simp

/-- On a sorted list the whole stride loop is the identity. -/
lemma strideLoop_id : ∀ (s : ℕ) (l : List ℕ), l.Sorted (· ≤ ·) →
    strideLoop l s = l := by
  intro s
  induction s using Nat.strong_induction_on with
  | _ s ih =>
    intro l hsorted
    rw [strideLoop]
    by_cases h : s = 0
    · rw [dif_pos h]
    · rw [dif_neg h, onePass_id s (Nat.pos_of_ne_zero h) l hsorted]
      exact ih (s / 3) (Nat.div_lt_self (Nat.pos_of_ne_zero h) (by omega)) l
        hsorted

/-- Sorting an already-sorted list changes nothing. -/
lemma groups_sort_of_sorted (l : List ℕ) (hsorted : l.Sorted (· ≤ ·)) :
    groups_sort l = l :=
  strideLoop_id _ l hsorted

/-- `groups_sort` is idempotent. -/
lemma groups_sort_idem (l : List ℕ) :
    groups_sort (groups_sort l) = groups_sort l :=
  groups_sort_of_sorted _ (groups_sort_sorted l)

/-- `groups_search` on a sorted list decides membership. -/
lemma groups_search_sorted_iff {l : List ℕ} (hl : l.Sorted (· ≤ ·)) (grp : ℕ) :
    groups_search (some l) grp = true ↔ grp ∈ l := by
  show searchLoop l grp 0 l.length = true ↔ grp ∈ l
  rw [searchLoop_true_iff hl grp l.length 0 l.length (by omega) le_rfl]
  constructor
  · rintro ⟨i, _, h2, h3⟩
    rw [List.getD_eq_getElem _ _ h2] at h3
    exact h3 ▸ List.getElem_mem h2
  · intro hmem
    obtain ⟨i, hi, hgi⟩ := List.mem_iff_getElem.mp hmem
    exact ⟨i, Nat.zero_le i, hi, by rw [List.getD_eq_getElem _ _ hi]; exact hgi⟩

/-!
## Helper lemmas: allocator accounting
-/

/-- The undo loop frees exactly the given number of pages. -/
lemma undoLoop_val : ∀ (i live : ℕ), undoLoop i live = live - i := by
  intro i
  induction i with
  | zero => intro live; rfl
  | succ j ih =>
    intro live
    rw [undoLoop, ih]
    omega

/-- The free loop frees exactly the given number of pages. -/
lemma freeLoop_val : ∀ (n live : ℕ), freeLoop n live = live - n := by
  intro n
  induction n with
  | zero => intro live; rfl
  | succ m ih =>
    intro live
    rw [freeLoop, ih]
    omega

/-- A successful block-allocation loop allocates one page per remaining
block. -/
lemma allocLoop_true (pageOk : ℕ → Bool) (nblocks : ℕ) :
    ∀ (fuel i live live2 : ℕ), nblocks - i ≤ fuel →
      allocLoop pageOk nblocks i live = (true, live2) →
      live2 = live + (nblocks - i) := by
  intro fuel
  induction fuel with
  | zero =>
    intro i live live2 hfuel h
    rw [allocLoop, if_neg (by omega : ¬ i < nblocks)] at h
    obtain ⟨-, rfl⟩ := Prod.mk.injEq .. ▸ h
    omega
  | succ n ih =>
    intro i live live2 hfuel h
    rw [allocLoop] at h
    by_cases hi : i < nblocks
    · rw [if_pos hi] at h
      by_cases hp : pageOk i = true
      · rw [if_pos hp] at h
        have := ih (i + 1) (live + 1) live2 (by omega) h
        omega
      · rw [if_neg hp] at h
        exact absurd (congrArg Prod.fst h) (by simp)
    · rw [if_neg hi] at h
      obtain ⟨-, rfl⟩ := Prod.mk.injEq .. ▸ h
      omega

/-- A failing block-allocation loop undoes everything it allocated. -/
lemma allocLoop_false (pageOk : ℕ → Bool) (nblocks : ℕ) :
    ∀ (fuel i live live2 : ℕ), nblocks - i ≤ fuel →
      allocLoop pageOk nblocks i live = (false, live2) →
      live2 = live - i := by
  intro fuel
  induction fuel with
  | zero =>
    intro i live live2 hfuel h
    rw [allocLoop, if_neg (by omega : ¬ i < nblocks)] at h
    exact absurd (congrArg Prod.fst h) (by simp)
  | succ n ih =>
    intro i live live2 hfuel h
    rw [allocLoop] at h
    by_cases hi : i < nblocks
    · rw [if_pos hi] at h
      by_cases hp : pageOk i = true
      · rw [if_pos hp] at h
        have := ih (i + 1) (live + 1) live2 (by omega) h
        omega
      · rw [if_neg hp] at h
        rw [undoLoop_val] at h
        obtain ⟨-, h2⟩ := Prod.mk.injEq .. ▸ h
        omega
    · rw [if_neg hi] at h
      exact absurd (congrArg Prod.fst h) (by simp)

/-!
## Helper lemmas: boundary transfer
-/

/-- If every remaining slot is writable, the export loop writes all of them
in order and returns 0. -/
lemma toUserLoop_ok (l : List ℕ) (munge : ℕ → ℕ) (writeOk : ℕ → Bool)
    (count : ℕ) : ∀ (fuel j : ℕ) (acc : List (ℕ × ℕ)), count - j ≤ fuel →
      (∀ i, j ≤ i → i < count → writeOk i = true) →
      toUserLoop l munge writeOk count j acc =
        (0, acc ++ (List.range' j (count - j)).map
          (fun i => (i, munge (l.getD i 0)))) := by
  intro fuel
  induction fuel with
  | zero =>
    intro j acc hfuel _
    rw [toUserLoop, if_neg (by omega : ¬ j < count)]
    have : count - j = 0 := by omega
    rw [this]
    simp
  | succ n ih =>
    intro j acc hfuel hw
    rw [toUserLoop]
    by_cases hj : j < count
    · rw [if_pos hj, if_pos (hw j (le_refl j) hj)]
      rw [ih (j + 1) (acc ++ [(j, munge (l.getD j 0))]) (by omega)
        (fun i h1 h2 => hw i (by omega) h2)]
      have hrange : count - j = (count - (j + 1)) + 1 := by omega
      rw [hrange, List.range'_succ]
      simp
    · rw [if_neg hj]
      have : count - j = 0 := by omega
      rw [this]
      simp

/-- If some slot is unwritable, the export loop reports `-EFAULT`. -/
lemma toUserLoop_fault (l : List ℕ) (munge : ℕ → ℕ) (writeOk : ℕ → Bool)
    (count : ℕ) : ∀ (fuel j : ℕ) (acc : List (ℕ × ℕ)), count - j ≤ fuel →
      (∃ i, j ≤ i ∧ i < count ∧ writeOk i = false) →
      (toUserLoop l munge writeOk count j acc).1 = -EFAULT := by
  intro fuel
  induction fuel with
  | zero =>
    intro j acc hfuel ⟨i, h1, h2, _⟩
    omega
  | succ n ih =>
    intro j acc hfuel hex
    obtain ⟨i, h1, h2, h3⟩ := hex
    rw [toUserLoop, if_pos (by omega : j < count)]
    by_cases hwj : writeOk j = true
    · rw [if_pos hwj]
      refine ih (j + 1) _ (by omega) ⟨i, ?_, h2, h3⟩
      rcases Nat.eq_or_lt_of_le h1 with rfl | h
      · rw [hwj] at h3; exact absurd h3 (by simp)
      · omega
    · rw [if_neg hwj]

/-- On an all-writable destination, `groups_to_user` writes the translated
list, in order, and returns 0. -/
lemma groups_to_user_ok (l : List ℕ) (munge : ℕ → ℕ) (writeOk : ℕ → Bool)
    (hw : ∀ i, i < l.length → writeOk i = true) :
    groups_to_user l munge writeOk =
      (0, (List.range l.length).map (fun i => (i, munge (l.getD i 0)))) := by
  rw [groups_to_user, toUserLoop_ok l munge writeOk l.length l.length 0 []
    (by omega) (fun i _ h2 => hw i h2)]
  rw [List.range_eq_range']
  simp

/-- The import loop only ever fails with `-EFAULT` or `-EINVAL`. -/
lemma fromUserLoop_error (reads : ℕ → UserRead) (makeKgid : ℕ → Option ℕ)
    (count : ℕ) : ∀ (fuel i : ℕ) (gids : List ℕ) (e : Int),
      count - i ≤ fuel →
      fromUserLoop reads makeKgid count i gids = .error e →
      e = -EFAULT ∨ e = -EINVAL := by
  intro fuel
  induction fuel with
  | zero =>
    intro i gids e hfuel h
    rw [fromUserLoop, if_neg (by omega : ¬ i < count)] at h
    exact absurd h (by simp)
  | succ n ih =>
    intro i gids e hfuel h
    rw [fromUserLoop] at h
    by_cases hi : i < count
    · rw [if_pos hi] at h
      rcases hr : reads i with _ | gid
      · rw [hr] at h
        simp only [Except.error.injEq] at h
        exact Or.inl h.symm
      · rw [hr] at h
        have h2 : (match makeKgid gid with
            | none => Except.error (-EINVAL)
            | some kgid =>
              fromUserLoop reads makeKgid count (i + 1) (gids.set i kgid)) =
            Except.error e := h
        rcases hk : makeKgid gid with _ | kgid
        · rw [hk] at h2
          simp only [Except.error.injEq] at h2
          exact Or.inr h2.symm
        · rw [hk] at h2
          exact ih (i + 1) _ e (by omega) h2
    · rw [if_neg hi] at h
      exact absurd h (by simp)

/-- A successful import only replaces the stored identifiers. -/
lemma groups_from_user_ok {gi gi2 : GroupInfo} {reads : ℕ → UserRead}
    {makeKgid : ℕ → Option ℕ}
    (h : groups_from_user gi reads makeKgid = .ok gi2) :
    gi2.usage = gi.usage ∧ gi2.ngroups = gi.ngroups ∧
    gi2.nblocks = gi.nblocks ∧ gi2.inlineBlock = gi.inlineBlock := by
  rw [groups_from_user] at h
  rcases hl : fromUserLoop reads makeKgid gi.ngroups 0 gi.gids with e | gids
  · rw [hl] at h; exact absurd h (by simp)
  · rw [hl] at h
    simp only [Except.ok.injEq] at h
    rw [← h]
    exact ⟨rfl, rfl, rfl, rfl⟩

/-- A failing import reports the loop's error. -/
lemma groups_from_user_error {gi : GroupInfo} {reads : ℕ → UserRead}
    {makeKgid : ℕ → Option ℕ} {e : Int}
    (h : groups_from_user gi reads makeKgid = .error e) :
    e = -EFAULT ∨ e = -EINVAL := by
  rw [groups_from_user] at h
  rcases hl : fromUserLoop reads makeKgid gi.ngroups 0 gi.gids with e' | gids
  · rw [hl] at h
    simp only [Except.error.injEq] at h
    exact h ▸ fromUserLoop_error reads makeKgid gi.ngroups gi.ngroups 0
      gi.gids e' (by omega) hl
  · rw [hl] at h; exact absurd h (by simp)

/-- Whatever `groups_alloc` returns has refcount 1. -/
lemma groups_alloc_usage {k : ℕ} {km : Bool} {pg : ℕ → Bool} {gi : GroupInfo}
    (h : (groups_alloc k km pg).1 = some gi) : gi.usage = 1 := by
  rw [groups_alloc] at h
  by_cases hkm : km = false
  · rw [if_pos hkm] at h; exact absurd h (by simp)
  · rw [if_neg hkm] at h
    by_cases hsm : k ≤ NGROUPS_SMALL
    · rw [if_pos hsm] at h
      simp only [Option.some.injEq] at h
      rw [← h]
    · rw [if_neg hsm] at h
      rcases hal : allocLoop pg
          (if (k + NGROUPS_PER_BLOCK - 1) / NGROUPS_PER_BLOCK = 0 then 1
            else (k + NGROUPS_PER_BLOCK - 1) / NGROUPS_PER_BLOCK) 0 1
        with ⟨ok, live⟩
      rw [hal] at h
      cases ok
      · exact absurd h (by simp)
      · simp only [Option.some.injEq] at h
        rw [← h]

/-- Refcount bookkeeping of the privilege gate: the caller's reference count
on the requested set gains one exactly when the gate succeeds. -/
lemma set_current_groups_usage (capSetgid prepOk : Bool) (current : Cred)
    (group_info : List ℕ) (giUsage : ℕ) :
    ((set_current_groups capSetgid prepOk current group_info giUsage).1 = 0 →
      (set_current_groups capSetgid prepOk current group_info giUsage).2.2 =
        giUsage + 1) ∧
    ((set_current_groups capSetgid prepOk current group_info giUsage).1 ≠ 0 →
      (set_current_groups capSetgid prepOk current group_info giUsage).2.2 =
        giUsage) := by
  rw [set_current_groups]
  by_cases hprep : prepOk = false
  · rw [if_pos hprep]
    constructor
    · intro hcon
      have hz : -ENOMEM = (0 : Int) := hcon
      rw [ENOMEM] at hz
      omega
    · intro _; rfl
  · rw [if_neg hprep]
    by_cases hgate : capSetgid = false ∧
        is_subset (groups_sort group_info) current.group_info = false
    · rw [if_pos hgate]
      constructor
      · intro hcon
        have hz : -EPERM = (0 : Int) := hcon
        rw [EPERM] at hz
        omega
      · intro _; rfl
    · rw [if_neg hgate]
      constructor
      · intro _; rfl
      · intro h; exact absurd rfl h

/-!
## Helper lemmas: membership queries
-/

/-- `in_egroup_p` is the `egid` fast path plus membership. -/
lemma in_egroup_p_iff (cred : Cred) (grp : ℕ)
    (hs : cred.group_info.Sorted (· ≤ ·)) :
    in_egroup_p cred grp = true ↔ grp = cred.egid ∨ grp ∈ cred.group_info := by
  rw [in_egroup_p]
  by_cases h : grp = cred.egid
  · rw [if_neg (fun hne => hne h)]
    simp [h]
  · rw [if_pos h]
    rw [groups_search_sorted_iff hs]
    constructor
    · exact Or.inr
    · rintro (rfl | hmem)
      · exact absurd rfl h
      · exact hmem

/-- Outside the coredump special case, `in_group_p` is the `fsgid` fast path
plus membership. -/
lemma in_group_p_normal_iff (isDumpTask : Bool) (cred : Cred) (grp : ℕ)
    (hs : cred.group_info.Sorted (· ≤ ·))
    (hnd : ¬ (isDumpTask = true ∧ (grp = AID_SDCARD_RW ∨ grp = AID_SDCARD_R))) :
    in_group_p isDumpTask cred grp = true ↔
      grp = cred.fsgid ∨ grp ∈ cred.group_info := by
  rw [in_group_p]
  rw [if_neg hnd]
  by_cases h : grp = cred.fsgid
  · rw [if_neg (fun hne => hne h)]
    simp [h]
  · rw [if_pos h]
    rw [groups_search_sorted_iff hs]
    constructor
    · exact Or.inr
    · rintro (rfl | hmem)
      · exact absurd rfl h
      · exact hmem

/-!
## Claim theorems
-/

/-- C1: in `set_current_groups`, after sorting the requested set and obtaining
a private credential draft, a caller without `CAP_SETGID` whose (sorted)
request is not a subset of the draft's current group set gets `-EPERM` with
its current credentials (including the group set) unchanged; otherwise the
sorted request is installed (one reference retained) and the draft is
committed. -/
theorem set_current_groups_gate (capSetgid : Bool) (current : Cred)
    (group_info : List ℕ) (giUsage : ℕ) :
    (capSetgid = false →
      is_subset (groups_sort group_info) current.group_info = false →
      set_current_groups capSetgid true current group_info giUsage =
        (-EPERM, current, giUsage)) ∧
    (capSetgid = true ∨
        is_subset (groups_sort group_info) current.group_info = true →
      set_current_groups capSetgid true current group_info giUsage =
        (0, { current with group_info := groups_sort group_info },
          giUsage + 1)) := by
  constructor
  · intro hcap hsub
    rw [set_current_groups]
    rw [if_neg (by simp : ¬ (true = false))]
    rw [if_pos ⟨hcap, hsub⟩]
  · intro hor
    rw [set_current_groups]
    rw [if_neg (by simp : ¬ (true = false))]
    have hgate : ¬ (capSetgid = false ∧
        is_subset (groups_sort group_info) current.group_info = false) := by
      rcases hor with hcap | hsub
      · rintro ⟨h1, -⟩; rw [hcap] at h1; exact absurd h1 (by simp)
      · rintro ⟨-, h2⟩; rw [hsub] at h2; exact absurd h2 (by simp)
    rw [if_neg hgate]
    rfl

/-- Witness for C1: the spec scenario — unprivileged caller with current set
`{100, 200}`: requesting `{200}` succeeds and the current set becomes
`{200}`; requesting `{200, 400}` fails with `-EPERM` and the current set is
unchanged. -/
theorem set_current_groups_gate_witness :
    set_current_groups false true ⟨0, 0, 0, [100, 200]⟩ [200] 1 =
      (0, ⟨0, 0, 0, [200]⟩, 2) ∧
    set_current_groups false true ⟨0, 0, 0, [100, 200]⟩ [200, 400] 1 =
      (-EPERM, ⟨0, 0, 0, [100, 200]⟩, 1) := by
  have hs1 : groups_sort [200] = [200] := by
    simp [groups_sort, strideLoop, growStride]
  have hs2 : groups_sort [200, 400] = [200, 400] := by
    simp [groups_sort, strideLoop, onePass, baseLoop, insertStep, innerWhile,
      growStride]
  constructor
  · have h := (set_current_groups_gate false ⟨0, 0, 0, [100, 200]⟩ [200] 1).2
      (Or.inr (by rw [hs1]; decide))
    rw [hs1] at h
    exact h
  · exact (set_current_groups_gate false ⟨0, 0, 0, [100, 200]⟩ [200, 400] 1).1
      rfl (by rw [hs2]; decide)

/-- Counterexample for C2 as stated: over group sets with duplicates (which
the container permits), element-wise containment does not imply
`is_subset`: `[1, 1]` and `[1]` are both sorted, every element of `[1, 1]`
appears in `[1]`, yet `is_subset [1, 1] [1] = false`. -/
theorem is_subset_duplicate_counterexample :
    ([1, 1] : List ℕ).Sorted (· ≤ ·) ∧ ([1] : List ℕ).Sorted (· ≤ ·) ∧
    (∀ x ∈ ([1, 1] : List ℕ), x ∈ ([1] : List ℕ)) ∧
    is_subset [1, 1] [1] = false := by
  refine ⟨?_, ?_, ?_, ?_⟩ <;> decide

/-- C2 (amended): for sorted `A` and `B` with `A` duplicate-free,
`is_subset A B = true` iff every element of `A` appears in `B`; moreover
`is_subset A A = true` for every sorted `A` (duplicates allowed), and
`is_subset [] B = true` for every `B`. -/
theorem is_subset_spec :
    (∀ A B : List ℕ, A.Sorted (· ≤ ·) → A.Nodup → B.Sorted (· ≤ ·) →
      (is_subset A B = true ↔ ∀ x ∈ A, x ∈ B)) ∧
    (∀ A : List ℕ, A.Sorted (· ≤ ·) → is_subset A A = true) ∧
    (∀ B : List ℕ, is_subset [] B = true) := by
  refine ⟨?_, is_subset_self, fun B => rfl⟩
  intro A B hA hnd hB
  constructor
  · exact is_subset_sound A B
  · exact is_subset_complete A B hA hnd hB

/-- Witness for C2: concrete sorted instances of the three parts. -/
theorem is_subset_spec_witness :
    is_subset [2, 7] [1, 2, 7, 9] = true ∧
    is_subset [3, 3, 5] [3, 3, 5] = true ∧
    is_subset [] [9] = true := by
  refine ⟨?_, ?_, ?_⟩
  · exact (is_subset_spec.1 [2, 7] [1, 2, 7, 9] (by decide) (by decide)
      (by decide)).mpr (by decide)
  · exact is_subset_spec.2.1 [3, 3, 5] (by decide)
  · exact is_subset_spec.2.2 [9]

/-- C3: `groups_search` on a sorted set finds `g` iff `g` occurs in it, and a
NULL set or a zero-length set yields not-found (the function is total, so it
cannot fault). -/
theorem groups_search_spec :
    (∀ (S : List ℕ) (g : ℕ), S.Sorted (· ≤ ·) →
      (groups_search (some S) g = true ↔ g ∈ S)) ∧
    (∀ g : ℕ, groups_search none g = false) ∧
    (∀ g : ℕ, groups_search (some []) g = false) := by
  refine ⟨fun S g hs => groups_search_sorted_iff hs g, fun g => rfl, fun g => ?_⟩
  show searchLoop [] g 0 0 = false
  rw [searchLoop]
  simp

/-- Witness for C3: a hit, a miss, and the empty set, on concrete input. -/
theorem groups_search_spec_witness :
    groups_search (some [2, 4, 7]) 4 = true ∧
    groups_search (some [2, 4, 7]) 5 = false ∧
    groups_search (some []) 5 = false := by
  refine ⟨?_, ?_, groups_search_spec.2.2 5⟩
  · exact (groups_search_spec.1 [2, 4, 7] 4 (by decide)).mpr (by decide)
  · have h5 := groups_search_spec.1 [2, 4, 7] 5 (by decide)
    rcases Bool.eq_false_or_eq_true (groups_search (some [2, 4, 7]) 5) with
      he | he
    · exact absurd (h5.mp he) (by decide)
    · exact he

/-- C4: `groups_sort` produces a non-decreasing rearrangement — a permutation
of the input multiset — and is idempotent. -/
theorem groups_sort_spec (l : List ℕ) :
    (groups_sort l).Sorted (· ≤ ·) ∧ (groups_sort l).Perm l ∧
    groups_sort (groups_sort l) = groups_sort l :=
  ⟨groups_sort_sorted l, groups_sort_perm l, groups_sort_idem l⟩

/-- C5: `sys_setgroups` fails with `-EPERM` when `may_setgroups` denies the
caller, with `-EINVAL` when the (unsigned) size exceeds `NGROUPS_MAX`;
otherwise it imports the user list into the freshly allocated set and hands
it to the privilege gate; and on every path on which the allocation
succeeded, the reference `groups_alloc` created is dropped before returning:
the final refcount is 1 exactly when the set was installed (retval 0) and 0
— freed — otherwise. -/
theorem sys_setgroups_spec (capSetgid prepOk kmallocOk : Bool)
    (pageOk : ℕ → Bool) (gidsetsize : Int) (reads : ℕ → UserRead)
    (makeKgid : ℕ → Option ℕ) (current : Cred) :
    (capSetgid = false →
      sys_setgroups capSetgid prepOk kmallocOk pageOk gidsetsize reads
        makeKgid current = (-EPERM, current, none)) ∧
    (capSetgid = true → NGROUPS_MAX < castUnsigned gidsetsize →
      sys_setgroups capSetgid prepOk kmallocOk pageOk gidsetsize reads
        makeKgid current = (-EINVAL, current, none)) ∧
    (∀ gi gi2,
      (groups_alloc (castUnsigned gidsetsize) kmallocOk pageOk).1 = some gi →
      groups_from_user gi reads makeKgid = Except.ok gi2 →
      capSetgid = true → castUnsigned gidsetsize ≤ NGROUPS_MAX →
      sys_setgroups capSetgid prepOk kmallocOk pageOk gidsetsize reads
        makeKgid current =
        ((set_current_groups capSetgid prepOk current gi2.gids gi2.usage).1,
         (set_current_groups capSetgid prepOk current gi2.gids gi2.usage).2.1,
         some (put_group_info (set_current_groups capSetgid prepOk current
           gi2.gids gi2.usage).2.2))) ∧
    (∀ u, (sys_setgroups capSetgid prepOk kmallocOk pageOk gidsetsize reads
        makeKgid current).2.2 = some u →
      u = if (sys_setgroups capSetgid prepOk kmallocOk pageOk gidsetsize reads
        makeKgid current).1 = 0 then 1 else 0) := by
  refine ⟨?_, ?_, ?_, ?_⟩
  · intro hcap
    rw [sys_setgroups]
    rw [if_pos (show may_setgroups capSetgid = false by
      rw [may_setgroups, hcap])]
  · intro hcap hsz
    rw [sys_setgroups]
    rw [if_neg (show ¬ may_setgroups capSetgid = false by
      rw [may_setgroups, hcap]; simp)]
    rw [if_pos hsz]
  · intro gi gi2 halloc hfrom hcap hsz
    rw [sys_setgroups]
    rw [if_neg (show ¬ may_setgroups capSetgid = false by
      rw [may_setgroups, hcap]; simp)]
    rw [if_neg (show ¬ NGROUPS_MAX < castUnsigned gidsetsize by omega)]
    simp only [halloc, hfrom]
  · intro u hu
    by_cases hms : may_setgroups capSetgid = false
    · rw [sys_setgroups, if_pos hms] at hu
      exact absurd hu (by simp)
    · by_cases hsz : NGROUPS_MAX < castUnsigned gidsetsize
      · rw [sys_setgroups, if_neg hms, if_pos hsz] at hu
        exact absurd hu (by simp)
      · rcases halloc : (groups_alloc (castUnsigned gidsetsize) kmallocOk
            pageOk).1 with _ | gi
        · rw [sys_setgroups, if_neg hms, if_neg hsz] at hu
          simp only [halloc] at hu
          exact absurd hu (by simp)
        · have husage : gi.usage = 1 := groups_alloc_usage halloc
          rcases hfrom : groups_from_user gi reads makeKgid with e | gi2
          · have hne : e ≠ 0 := by
              rcases groups_from_user_error hfrom with rfl | rfl
              · rw [EFAULT]; omega
              · rw [EINVAL]; omega
            rw [sys_setgroups, if_neg hms, if_neg hsz] at hu ⊢
            simp only [halloc, hfrom] at hu ⊢
            rw [if_neg hne]
            simp only [Option.some.injEq] at hu
            rw [← hu, husage]
            rfl
          · have hu2 : gi2.usage = 1 :=
              (groups_from_user_ok hfrom).1.trans husage
            rw [sys_setgroups, if_neg hms, if_neg hsz] at hu ⊢
            simp only [halloc, hfrom] at hu ⊢
            simp only [Option.some.injEq] at hu
            have hcases := set_current_groups_usage capSetgid prepOk current
              gi2.gids gi2.usage
            by_cases hret : (set_current_groups capSetgid prepOk current
                gi2.gids gi2.usage).1 = 0
            · rw [if_pos hret]
              rw [← hu, hcases.1 hret, hu2]
              rfl
            · rw [if_neg hret]
              rw [← hu, hcases.2 hret, hu2]
              rfl

/-- Witness for C5: a capability-denied call returns `-EPERM` with no set
allocated, and on a successful privileged call the allocated set's final
refcount is exactly the single reference now held by the credentials. -/
theorem sys_setgroups_spec_witness :
    sys_setgroups false true true (fun _ => true) 2
      (fun i => UserRead.val (100 + i)) some ⟨0, 0, 0, [7]⟩ =
      (-EPERM, ⟨0, 0, 0, [7]⟩, none) ∧
    (1 : ℕ) = if (sys_setgroups true true true (fun _ => true) 2
        (fun i => UserRead.val (100 + i)) some ⟨0, 0, 0, [7]⟩).1 = 0
      then 1 else 0 := by
  constructor
  · exact (sys_setgroups_spec false true true (fun _ => true) 2
      (fun i => UserRead.val (100 + i)) some ⟨0, 0, 0, [7]⟩).1 rfl
  · apply (sys_setgroups_spec true true true (fun _ => true) 2
      (fun i => UserRead.val (100 + i)) some ⟨0, 0, 0, [7]⟩).2.2.2 1
    simp [sys_setgroups, may_setgroups, castUnsigned, NGROUPS_MAX,
      groups_alloc, NGROUPS_SMALL, NGROUPS_PER_BLOCK, groups_from_user,
      fromUserLoop, set_current_groups, commit_creds, get_group_info,
      put_group_info, groups_sort, strideLoop, onePass, baseLoop, insertStep,
      innerWhile, growStride, is_subset]

/-- Counterexample for C6 as stated: the claim says the call "returns the
count of identifiers in the caller's current group set" unless one of its
listed failure cases applies, but for a negative capacity the code returns
`-EINVAL` before looking at the set: with current set `[5]` (count 1) and
`N = -1` the call returns `-EINVAL`, not 1. -/
theorem sys_getgroups_negative_counterexample :
    sys_getgroups ⟨0, 0, 0, [5]⟩ (-1) id (fun _ => true) = (-EINVAL, []) ∧
    ((⟨0, 0, 0, [5]⟩ : Cred).group_info.length : Int) = 1 ∧
    (-EINVAL : Int) ≠ 1 := by
  refine ⟨?_, by decide, by rw [EINVAL]; omega⟩
  rw [sys_getgroups, if_pos (by omega : (-1 : Int) < 0)]

/-- C6 (amended): `sys_getgroups` with buffer capacity `N` fails with
`-EINVAL` when `N` is negative; returns the count without writing when
`N = 0`; fails with `-EINVAL` writing nothing when `0 < N` and the count
exceeds `N`; otherwise writes exactly `count` translated identifiers and
returns the count, failing with `-EFAULT` if the destination cannot be
written. -/
theorem sys_getgroups_spec (current : Cred) (N : Int) (munge : ℕ → ℕ)
    (writeOk : ℕ → Bool) :
    (N < 0 → sys_getgroups current N munge writeOk = (-EINVAL, [])) ∧
    (N = 0 → sys_getgroups current N munge writeOk =
      ((current.group_info.length : Int), [])) ∧
    (0 < N → N < (current.group_info.length : Int) →
      sys_getgroups current N munge writeOk = (-EINVAL, [])) ∧
    (0 < N → (current.group_info.length : Int) ≤ N →
      (∀ i, i < current.group_info.length → writeOk i = true) →
      sys_getgroups current N munge writeOk =
        ((current.group_info.length : Int),
          (List.range current.group_info.length).map
            (fun i => (i, munge (current.group_info.getD i 0))))) ∧
    (0 < N → (current.group_info.length : Int) ≤ N →
      (∃ i, i < current.group_info.length ∧ writeOk i = false) →
      (sys_getgroups current N munge writeOk).1 = -EFAULT) := by
  refine ⟨?_, ?_, ?_, ?_, ?_⟩
  · intro hneg
    rw [sys_getgroups, if_pos hneg]
  · intro hzero
    subst hzero
    rw [sys_getgroups, if_neg (by omega : ¬ (0 : Int) < 0)]
    simp
  · intro hpos hlt
    rw [sys_getgroups, if_neg (by omega : ¬ N < 0),
      if_pos (by omega : N ≠ 0), if_pos hlt]
  · intro hpos hle hw
    rw [sys_getgroups, if_neg (by omega : ¬ N < 0),
      if_pos (by omega : N ≠ 0),
      if_neg (by omega : ¬ N < (current.group_info.length : Int))]
    rw [groups_to_user_ok current.group_info munge writeOk hw]
    simp
  · intro hpos hle hex
    obtain ⟨i, hi, hwi⟩ := hex
    rw [sys_getgroups, if_neg (by omega : ¬ N < 0),
      if_pos (by omega : N ≠ 0),
      if_neg (by omega : ¬ N < (current.group_info.length : Int))]
    have hfault : (groups_to_user current.group_info munge writeOk).1 =
        -EFAULT := by
      rw [groups_to_user]
      exact toUserLoop_fault current.group_info munge writeOk
        current.group_info.length current.group_info.length 0 [] (by omega)
        ⟨i, by omega, hi, hwi⟩
    rw [if_pos (by rw [hfault, EFAULT]; omega)]

/-- Witness for C6: the spec scenario — current set `[100, 200, 300]`: a
buffer of capacity 2 yields `-EINVAL` with nothing written, capacity 3 yields
`[100, 200, 300]` written in order. -/
theorem sys_getgroups_spec_witness :
    sys_getgroups ⟨0, 0, 0, [100, 200, 300]⟩ 2 id (fun _ => true) =
      (-EINVAL, []) ∧
    sys_getgroups ⟨0, 0, 0, [100, 200, 300]⟩ 3 id (fun _ => true) =
      (3, [(0, 100), (1, 200), (2, 300)]) := by
  constructor
  · exact (sys_getgroups_spec ⟨0, 0, 0, [100, 200, 300]⟩ 2 id
      (fun _ => true)).2.2.1 (by omega) (by simp)
  · have h := (sys_getgroups_spec ⟨0, 0, 0, [100, 200, 300]⟩ 3 id
      (fun _ => true)).2.2.2.1 (by omega) (by simp) (fun i _ => rfl)
    rw [h]
    simp [List.range_succ]

/-- C7: `groups_alloc k` either succeeds with a set of count `k`,
`max ⌈k / NGROUPS_PER_BLOCK⌉ 1` blocks and refcount 1 — and releasing it
returns the allocator to baseline — or fails having already released every
block allocated for this construction (the live-allocation counter is 0). -/
theorem groups_alloc_spec (k : ℕ) (kmallocOk : Bool) (pageOk : ℕ → Bool) :
    (∀ gi live, groups_alloc k kmallocOk pageOk = (some gi, live) →
      gi.ngroups = k ∧
      gi.nblocks = max ((k + NGROUPS_PER_BLOCK - 1) / NGROUPS_PER_BLOCK) 1 ∧
      gi.usage = 1 ∧ groups_free gi live = 0) ∧
    (∀ live, groups_alloc k kmallocOk pageOk = (none, live) → live = 0) := by
  have hmax : (if (k + NGROUPS_PER_BLOCK - 1) / NGROUPS_PER_BLOCK = 0 then 1
      else (k + NGROUPS_PER_BLOCK - 1) / NGROUPS_PER_BLOCK) =
      max ((k + NGROUPS_PER_BLOCK - 1) / NGROUPS_PER_BLOCK) 1 := by
    generalize (k + NGROUPS_PER_BLOCK - 1) / NGROUPS_PER_BLOCK = m
    by_cases h : m = 0
    · rw [if_pos h, h]
      decide
    · rw [if_neg h, Nat.max_eq_left (by omega)]
  constructor
  · intro gi live h
    rw [groups_alloc] at h
    by_cases hkm : kmallocOk = false
    · rw [if_pos hkm] at h
      exact absurd (congrArg Prod.fst h) (by simp)
    · rw [if_neg hkm] at h
      by_cases hsm : k ≤ NGROUPS_SMALL
      · rw [if_pos hsm] at h
        obtain ⟨h1, h2⟩ := Prod.mk.injEq .. ▸ h
        simp only [Option.some.injEq] at h1
        subst h2
        rw [← h1, ← hmax]
        refine ⟨rfl, rfl, rfl, ?_⟩
        rw [groups_free]
        rfl
      · rw [if_neg hsm] at h
        rcases hal : allocLoop pageOk
            (if (k + NGROUPS_PER_BLOCK - 1) / NGROUPS_PER_BLOCK = 0 then 1
              else (k + NGROUPS_PER_BLOCK - 1) / NGROUPS_PER_BLOCK) 0 1
          with ⟨ok, live'⟩
        rw [hal] at h
        cases ok
        · exact absurd (congrArg Prod.fst h) (by simp)
        · obtain ⟨h1, h2⟩ := Prod.mk.injEq .. ▸ h
          simp only [Option.some.injEq] at h1
          have hlive := allocLoop_true pageOk _ _ 0 1 live' (le_refl _) hal
          subst h2
          refine ⟨by rw [← h1], by rw [← h1, ← hmax], by rw [← h1], ?_⟩
          have hnb : gi.nblocks =
              (if (k + NGROUPS_PER_BLOCK - 1) / NGROUPS_PER_BLOCK = 0 then 1
                else (k + NGROUPS_PER_BLOCK - 1) / NGROUPS_PER_BLOCK) := by
            rw [← h1]
          have hinl : gi.inlineBlock = false := by rw [← h1]
          rw [groups_free, hinl, if_pos rfl, freeLoop_val, hnb]
          omega
  · intro live h
    rw [groups_alloc] at h
    by_cases hkm : kmallocOk = false
    · rw [if_pos hkm] at h
      exact (Prod.mk.injEq .. ▸ h).2.symm
    · rw [if_neg hkm] at h
      by_cases hsm : k ≤ NGROUPS_SMALL
      · rw [if_pos hsm] at h
        exact absurd (congrArg Prod.fst h) (by simp)
      · rw [if_neg hsm] at h
        rcases hal : allocLoop pageOk
            (if (k + NGROUPS_PER_BLOCK - 1) / NGROUPS_PER_BLOCK = 0 then 1
              else (k + NGROUPS_PER_BLOCK - 1) / NGROUPS_PER_BLOCK) 0 1
          with ⟨ok, live'⟩
        rw [hal] at h
        cases ok
        · have hlive := allocLoop_false pageOk _ _ 0 1 live' (le_refl _) hal
          have := (Prod.mk.injEq .. ▸ h).2
          omega
        · exact absurd (congrArg Prod.fst h) (by simp)

/-- Witness for C7: a small allocation (inline block) and a paged allocation
that fails on its second page, both checked against the spec theorem. -/
theorem groups_alloc_spec_witness :
    (⟨2, 1, 1, true, [0, 0]⟩ : GroupInfo).ngroups = 2 ∧
    (⟨2, 1, 1, true, [0, 0]⟩ : GroupInfo).nblocks =
      max ((2 + NGROUPS_PER_BLOCK - 1) / NGROUPS_PER_BLOCK) 1 ∧
    (⟨2, 1, 1, true, [0, 0]⟩ : GroupInfo).usage = 1 ∧
    groups_free ⟨2, 1, 1, true, [0, 0]⟩ 1 = 0 ∧
    (0 : ℕ) = 0 := by
  refine ⟨?_, ?_, ?_, ?_, ?_⟩
  · exact ((groups_alloc_spec 2 true (fun _ => true)).1
      ⟨2, 1, 1, true, [0, 0]⟩ 1 (by rfl)).1
  · exact ((groups_alloc_spec 2 true (fun _ => true)).1
      ⟨2, 1, 1, true, [0, 0]⟩ 1 (by rfl)).2.1
  · exact ((groups_alloc_spec 2 true (fun _ => true)).1
      ⟨2, 1, 1, true, [0, 0]⟩ 1 (by rfl)).2.2.1
  · exact ((groups_alloc_spec 2 true (fun _ => true)).1
      ⟨2, 1, 1, true, [0, 0]⟩ 1 (by rfl)).2.2.2
  · exact (groups_alloc_spec 2000 true (fun i => i = 0)).2 0
      (by simp [groups_alloc, NGROUPS_SMALL, NGROUPS_PER_BLOCK, allocLoop,
        undoLoop])

/-- Counterexample for C8 as stated: the `in_group_p` fast path compares the
target against the *filesystem* group id (`fsgid`), not the primary real
group id.  With real gid 5, fsgid 7, empty supplementary set and no coredump
context, the claim predicts `in_group_p 7 = groups_search ∅ 7 = false`, but
the code returns true. -/
theorem in_group_p_fsgid_counterexample :
    in_group_p false ⟨5, 9, 7, []⟩ 7 = true ∧
    (7 : ℕ) ≠ (⟨5, 9, 7, []⟩ : Cred).gid ∧
    groups_search (some (⟨5, 9, 7, []⟩ : Cred).group_info) 7 = false := by
  refine ⟨?_, by decide, ?_⟩
  · simp [in_group_p, AID_SDCARD_RW, AID_SDCARD_R]
  · show searchLoop [] 7 0 0 = false
    rw [searchLoop]
    simp

/-- C8 (amended): `in_egroup_p` returns true without searching when the
target equals the primary effective group id, and otherwise returns exactly
the binary-search result; `in_group_p` does the same with the primary
*filesystem* group id (`fsgid`, not the real gid) — provided the coredump
special case does not fire. -/
theorem membership_fastpath_spec (cred : Cred) (grp : ℕ) (isDumpTask : Bool)
    (hsorted : cred.group_info.Sorted (· ≤ ·)) :
    (in_egroup_p cred grp = true ↔
      grp = cred.egid ∨ grp ∈ cred.group_info) ∧
    (¬ (isDumpTask = true ∧ (grp = AID_SDCARD_RW ∨ grp = AID_SDCARD_R)) →
      (in_group_p isDumpTask cred grp = true ↔
        grp = cred.fsgid ∨ grp ∈ cred.group_info)) :=
  ⟨in_egroup_p_iff cred grp hsorted,
    in_group_p_normal_iff isDumpTask cred grp hsorted⟩

/-- Witness for C8: fast-path hit on `egid`, search hit for `in_group_p`. -/
theorem membership_fastpath_spec_witness :
    in_egroup_p ⟨5, 9, 7, [3, 8]⟩ 9 = true ∧
    in_group_p false ⟨5, 9, 7, [3, 8]⟩ 8 = true := by
  constructor
  · exact (membership_fastpath_spec ⟨5, 9, 7, [3, 8]⟩ 9 false
      (by decide)).1.mpr (Or.inl rfl)
  · exact ((membership_fastpath_spec ⟨5, 9, 7, [3, 8]⟩ 8 false
      (by decide)).2 (by simp)).mpr (Or.inr (by decide))

/-- C9: when the current process is the coredump-capture task, `in_group_p`
returns true for the fixed identifiers 1015 (`AID_SDCARD_RW`) and 1028
(`AID_SDCARD_R`) unconditionally — whether or not they occur in the set or
match `fsgid` — and in every other situation (other identifiers, or not the
coredump task) the normal fast-path-plus-search behavior applies. -/
theorem in_group_p_dump_spec (cred : Cred) (grp : ℕ) (isDumpTask : Bool)
    (hsorted : cred.group_info.Sorted (· ≤ ·)) :
    (isDumpTask = true → grp = AID_SDCARD_RW ∨ grp = AID_SDCARD_R →
      in_group_p isDumpTask cred grp = true) ∧
    (¬ (isDumpTask = true ∧ (grp = AID_SDCARD_RW ∨ grp = AID_SDCARD_R)) →
      (in_group_p isDumpTask cred grp = true ↔
        grp = cred.fsgid ∨ grp ∈ cred.group_info)) := by
  constructor
  · intro hdump hor
    rw [in_group_p, if_pos ⟨hdump, hor⟩]
  · exact in_group_p_normal_iff isDumpTask cred grp hsorted

/-- Witness for C9: during coredump capture, 1015 is granted even though the
set is empty and `fsgid` differs; outside it, an ordinary search succeeds. -/
theorem in_group_p_dump_spec_witness :
    in_group_p true ⟨0, 0, 0, []⟩ 1015 = true ∧
    in_group_p true ⟨1, 2, 3, [10]⟩ 10 = true := by
  constructor
  · exact (in_group_p_dump_spec ⟨0, 0, 0, []⟩ 1015 true (by decide)).1 rfl
      (Or.inl rfl)
  · exact ((in_group_p_dump_spec ⟨1, 2, 3, [10]⟩ 10 true (by decide)).2
      (by simp [AID_SDCARD_RW, AID_SDCARD_R])).mpr (Or.inr (by decide))

/-- C10: `set_groups` — the installer variant acting on an explicit
credential draft — performs no capability and no subset check: for every
draft and every group set it returns 0, stores the sorted set (a sorted
permutation of the request) in the draft, retains one reference on the new
set and releases one on the draft's previous set. -/
theorem set_groups_spec (new : Cred) (group_info : List ℕ)
    (giUsage oldUsage : ℕ) :
    (set_groups new group_info giUsage oldUsage).2.2.2 = 0 ∧
    (set_groups new group_info giUsage oldUsage).1 =
      { new with group_info := groups_sort group_info } ∧
    ((set_groups new group_info giUsage oldUsage).1.group_info).Sorted
      (· ≤ ·) ∧
    ((set_groups new group_info giUsage oldUsage).1.group_info).Perm
      group_info ∧
    (set_groups new group_info giUsage oldUsage).2.1 = giUsage + 1 ∧
    (set_groups new group_info giUsage oldUsage).2.2.1 = oldUsage - 1 :=
  ⟨rfl, rfl, groups_sort_sorted group_info, groups_sort_perm group_info,
    rfl, rfl⟩
